import Mathlib

/-!
Shallow embedding of the core of the Module_Based_Algo trading system:
the risk-management module (`modules/rms_module.py`), the execution
entry path (`modules/execution_module.py`), the historical-data merge
(`modules/data_module/historical_data.py`), the 1-minute resampler
(`modules/data_module/data_processor.py`) and the swing-level detector
(`strategy_deploy_1.py`).

Prices and portfolio values are modelled as exact rationals, quantities
as integers.  Python `int(x)` truncation toward zero is `pyInt`; Python
floor division `//` is `Int.fdiv`.  Python dictionaries are modelled as
insertion-ordered association lists.  Branches of the source that can
only be reached through a caught runtime exception (division by zero in
a log format string, etc.) are modelled explicitly where they change the
result or the state.
-/

namespace Algo

/-- Python `int(x)` conversion: truncation toward zero. -/
def pyInt (q : ℚ) : ℤ := if 0 ≤ q then ⌊q⌋ else ⌈q⌉

/-- Position side, `'long'` or `'short'` in the source. -/
inductive Side where
  | long
  | short
deriving DecidableEq, Repr

/-- `Position` dataclass from `rms_module.py` (the wall-clock `timestamp`
field, filled by `datetime.now()`, is omitted: no modelled code reads it). -/
structure Position where
  symbol : String
  side : Side
  quantity : ℤ
  entry_price : ℚ
  current_price : ℚ
  stop_loss : Option ℚ := none
  take_profit : Option ℚ := none
deriving DecidableEq, Repr

/-- `Position.unrealized_pnl` property. -/
def Position.unrealized_pnl (p : Position) : ℚ :=
  match p.side with
  | .long => (p.current_price - p.entry_price) * p.quantity
  | .short => (p.entry_price - p.current_price) * p.quantity

/-- Python truthiness of an optional float (`if not x:` is taken when the
value is `None` or `0.0`). -/
def truthy (o : Option ℚ) : Bool :=
  match o with
  | none => false
  | some x => decide (x ≠ 0)

/-- A closed-trade record appended to `trade_history` (the wall-clock
timestamp is omitted as for `Position`). -/
structure TradeRecord where
  symbol : String
  side : Side
  quantity : ℤ
  entry_price : ℚ
  exit_price : ℚ
  pnl : ℚ
deriving DecidableEq, Repr

/-- State of the `RiskManager` class.  The configuration values read from
`config` in the source (`MAX_POSITIONS`, `MAX_DAILY_LOSS`, ...) are the
corresponding fields; `config.LOT_SIZE` is the `lot_size` association
list (the source looks it up under `symbol.upper()`). -/
structure RiskManager where
  positions : List (String × Position)
  portfolio_value : ℚ
  daily_start_value : ℚ
  max_positions : ℕ
  max_daily_loss : ℚ
  max_position_size : ℚ
  position_size_percent : ℚ
  stop_loss_percent : ℚ
  target_profit_percent : ℚ
  lot_size : List (String × ℤ)
  daily_pnl : ℚ
  peak_portfolio_value : ℚ
  max_drawdown : ℚ
  trade_history : List TradeRecord
  daily_loss_limit_hit : Bool
  portfolio_stop_active : Bool
deriving DecidableEq, Repr

/-- Python dict lookup `d[k]` / `d.get(k)` on the association list. -/
def dictGet (d : List (String × Position)) (k : String) : Option Position :=
  (d.find? (fun p => p.1 == k)).map (fun p => p.2)

/-- Python `k in d`. -/
def dictContains (d : List (String × Position)) (k : String) : Bool :=
  d.any (fun p => p.1 == k)

/-- Python `d[k] = v`: replace in place if the key is present, else append. -/
def dictSet (d : List (String × Position)) (k : String) (v : Position) :
    List (String × Position) :=
  if dictContains d k then
    d.map (fun p => if p.1 == k then (p.1, v) else p)
  else
    d ++ [(k, v)]

/-- Python `del d[k]`. -/
def dictErase (d : List (String × Position)) (k : String) :
    List (String × Position) :=
  d.filter (fun p => !(p.1 == k))

/-- The side-adjusted risk per unit of `calculate_position_size`
(`entry - stop` for long, `stop - entry` for short). -/
def riskPerUnit (side : Side) (entry_price stop_loss : ℚ) : ℚ :=
  match side with
  | .long => entry_price - stop_loss
  | .short => stop_loss - entry_price

/-- The tail of `calculate_position_size`: `quantity = max(quantity, 1)`
followed by the final position-value re-check against
`max_position_size`. -/
def sizeClamp (rm : RiskManager) (entry_price : ℚ) (q : ℤ) : ℤ :=
  if rm.max_position_size < ((max q 1 : ℤ) : ℚ) * entry_price then
    max (pyInt (rm.max_position_size / entry_price)) 1
  else max q 1

/-- The risk-based quantity before lot rounding: `int(risk_per_trade /
risk_per_unit)` clamped by `int(max_position_size / entry_price)`. -/
def riskQuantity (rm : RiskManager) (entry_price stop_loss : ℚ)
    (side : Side) : ℤ :=
  min (pyInt (rm.portfolio_value * rm.position_size_percent /
      riskPerUnit side entry_price stop_loss))
    (pyInt (rm.max_position_size / entry_price))

/-- `RiskManager.calculate_position_size`.  The `entry_price = 0` and
`lot = 0` branches return 0 through the source's caught
`ZeroDivisionError`. -/
def calculate_position_size (rm : RiskManager) (symbol : String)
    (entry_price stop_loss : ℚ) (side : Side) : ℤ :=
  if rm.max_positions ≤ rm.positions.length then 0
  else if rm.daily_loss_limit_hit then 0
  else if riskPerUnit side entry_price stop_loss ≤ 0 then 0
  else if entry_price = 0 then 0
  else
    match rm.lot_size.find? (fun p => p.1 == symbol.toUpper) with
    | some ls =>
      if ls.2 = 0 then 0
      else sizeClamp rm entry_price
        (Int.fdiv (riskQuantity rm entry_price stop_loss side) ls.2 * ls.2)
    | none =>
      sizeClamp rm entry_price (riskQuantity rm entry_price stop_loss side)

/-- The realized profit-and-loss expression of `close_position`. -/
def closePnl (position : Position) (exit_price : ℚ) : ℚ :=
  if exit_price = position.current_price then position.unrealized_pnl
  else match position.side with
    | .long => (exit_price - position.entry_price) * position.quantity
    | .short => (position.entry_price - exit_price) * position.quantity

/-- `RiskManager.close_position`.  Returns the success flag and the new
state.  The returned flag is `false` when no position exists, and also —
with every state mutation already applied — when the success log line's
`pnl/(entry*quantity)` raises `ZeroDivisionError`. -/
def close_position (rm : RiskManager) (symbol : String)
    (exit_price? : Option ℚ) : Bool × RiskManager :=
  match dictGet rm.positions symbol with
  | none => (false, rm)
  | some position =>
    let exit_price := exit_price?.getD position.current_price
    let pnl := closePnl position exit_price
    let rm' : RiskManager :=
      { rm with
        portfolio_value :=
          rm.portfolio_value + (position.quantity * exit_price) + pnl
        trade_history := rm.trade_history ++
          [⟨symbol, position.side, position.quantity, position.entry_price,
            exit_price, pnl⟩]
        daily_pnl := rm.daily_pnl + pnl
        positions := dictErase rm.positions symbol }
    (decide (position.entry_price * position.quantity ≠ 0), rm')

/-- The stop-loss actually used by `open_position` (the given one, or the
`stop_loss_percent` default). -/
def openStop (slp : ℚ) (side : Side) (entry_price : ℚ)
    (stop_loss? : Option ℚ) : ℚ :=
  match stop_loss? with
  | some s => s
  | none =>
    match side with
    | .long => entry_price * (1 - slp)
    | .short => entry_price * (1 + slp)

/-- The take-profit computed by `open_position` from the realized stop
distance and the configured target-profit / stop-loss ratio. -/
def openTP (slp tpp : ℚ) (side : Side) (entry_price stop_loss : ℚ) : ℚ :=
  match side with
  | .long => entry_price + (|entry_price - stop_loss| * tpp / slp)
  | .short => entry_price - (|entry_price - stop_loss| * tpp / slp)

/-- The `Position` object created by `open_position`. -/
def openedPosition (slp tpp : ℚ) (symbol : String) (side : Side)
    (quantity : ℤ) (entry_price : ℚ) (stop_loss? : Option ℚ) : Position :=
  let stop_loss := openStop slp side entry_price stop_loss?
  ⟨symbol, side, quantity, entry_price, entry_price, some stop_loss,
    some (openTP slp tpp side entry_price stop_loss)⟩

/-- The `open_position` step closing an already-tracked position for the
symbol before replacing it. -/
def closeExisting (rm : RiskManager) (symbol : String) : RiskManager :=
  if dictContains rm.positions symbol then (close_position rm symbol none).2
  else rm

/-- `RiskManager.open_position`.  Returns the success flag and the new
state.  When `stop_loss_percent = 0` the take-profit computation raises
`ZeroDivisionError`; the call then returns `False`, but an existing
position for the symbol has already been closed. -/
def open_position (rm : RiskManager) (symbol : String) (side : Side)
    (quantity : ℤ) (entry_price : ℚ) (stop_loss? : Option ℚ) :
    Bool × RiskManager :=
  if quantity ≤ 0 then (false, rm)
  else if (closeExisting rm symbol).stop_loss_percent = 0 then
    (false, closeExisting rm symbol)
  else
    (true,
      { closeExisting rm symbol with
        positions := dictSet (closeExisting rm symbol).positions symbol
          (openedPosition (closeExisting rm symbol).stop_loss_percent
            (closeExisting rm symbol).target_profit_percent symbol side
            quantity entry_price stop_loss?)
        portfolio_value :=
          (closeExisting rm symbol).portfolio_value -
            quantity * entry_price })

/-- `RiskManager._check_stop_loss` for one (already price-updated)
position. -/
def check_stop_loss (rm : RiskManager) (position : Position) :
    Bool × RiskManager :=
  if !(truthy position.stop_loss) then (false, rm)
  else if (match position.side with
      | .long => decide (position.current_price ≤ position.stop_loss.getD 0)
      | .short => decide (position.stop_loss.getD 0 ≤ position.current_price))
    then
    (true,
      (close_position rm position.symbol
        (some (position.stop_loss.getD 0))).2)
  else (false, rm)

/-- `RiskManager._check_take_profit` for one position. -/
def check_take_profit (rm : RiskManager) (position : Position) :
    Bool × RiskManager :=
  if !(truthy position.take_profit) then (false, rm)
  else if (match position.side with
      | .long => decide (position.take_profit.getD 0 ≤ position.current_price)
      | .short => decide (position.current_price ≤ position.take_profit.getD 0))
    then
    (true,
      (close_position rm position.symbol
        (some (position.take_profit.getD 0))).2)
  else (false, rm)

/-- Write the new current price of `symbol` into the position set. -/
def setCurrentPrice (d : List (String × Position)) (symbol : String)
    (price : ℚ) : List (String × Position) :=
  d.map (fun p =>
    if p.1 == symbol then (p.1, { p.2 with current_price := price }) else p)

/-- The state after `position.current_price = price` in the
`update_positions` loop. -/
def priceUpdated (rm : RiskManager) (u : String × ℚ) : RiskManager :=
  { rm with positions := setCurrentPrice rm.positions u.1 u.2 }

/-- The stop-loss-then-take-profit checks on the found position (the
stop-loss close short-circuits the take-profit check). -/
def updateOneChecks (rm : RiskManager) (position : Position) : RiskManager :=
  match check_stop_loss rm position with
  | (true, rm1) => rm1
  | (false, rm1) => (check_take_profit rm1 position).2

def updateOne (rm : RiskManager) (u : String × ℚ) : RiskManager :=
  if dictContains rm.positions u.1 then
    match dictGet (priceUpdated rm u).positions u.1 with
    | none => priceUpdated rm u
    | some position => updateOneChecks (priceUpdated rm u) position
  else rm

/-- The mark-to-market portfolio value computed by
`_update_risk_metrics` / `get_risk_metrics`. -/
def currentValue (rm : RiskManager) : ℚ :=
  rm.portfolio_value +
    (rm.positions.map (fun p => (p.2.quantity : ℚ) * p.2.current_price)).sum

/-- `RiskManager._update_risk_metrics` (only the state-changing part: the
drawdown bookkeeping; the `peak = 0` division raises and is caught). -/
def update_risk_metrics (rm : RiskManager) : RiskManager :=
  if rm.peak_portfolio_value < currentValue rm then
    { rm with peak_portfolio_value := currentValue rm }
  else if rm.peak_portfolio_value = 0 then rm
  else
    { rm with max_drawdown := max rm.max_drawdown ((rm.peak_portfolio_value - currentValue rm) / rm.peak_portfolio_value) }

/-- `RiskManager._close_all_positions`: snapshot the keys, close each. -/
def close_all_positions (rm : RiskManager) : RiskManager :=
  (rm.positions.map (fun p => p.1)).foldl
    (fun r s => (close_position r s none).2) rm

/-- The daily-loss breaker of `_check_portfolio_limits`. -/
def checkDailyLoss (rm : RiskManager) : RiskManager :=
  if rm.daily_loss_limit_hit = false ∧ rm.daily_pnl ≤ -rm.max_daily_loss then
    close_all_positions { rm with daily_loss_limit_hit := true }
  else rm

/-- The 20%-drawdown breaker of `_check_portfolio_limits`. -/
def checkDrawdownStop (rm : RiskManager) : RiskManager :=
  if (1 : ℚ)/5 ≤ rm.max_drawdown ∧ rm.portfolio_stop_active = false then
    close_all_positions { rm with portfolio_stop_active := true }
  else rm

/-- `RiskManager._check_portfolio_limits`. -/
def check_portfolio_limits (rm : RiskManager) : RiskManager :=
  checkDrawdownStop (checkDailyLoss rm)

/-- `RiskManager.update_positions` over a price map (dict iteration order
modelled by the list order). -/
def update_positions (rm : RiskManager) (price_updates : List (String × ℚ)) :
    RiskManager :=
  check_portfolio_limits (update_risk_metrics (price_updates.foldl updateOne rm))

/-- `RiskManager.reset_daily_stats`. -/
def reset_daily_stats (rm : RiskManager) : RiskManager :=
  { rm with
    daily_pnl := 0
    daily_loss_limit_hit := false
    daily_start_value := rm.portfolio_value }

/-- `config.TRADING_MODE` as consumed by the execution engine. -/
inductive TradingMode where
  | live
  | paper
deriving DecidableEq, Repr

/-- `ExecutionEngine._execute_entry_signal`, restricted to its effect on
the `RiskManager` state.  `side` is `'long'` for a BUY signal and
`'short'` for a SELL signal; `stop_loss` is the signal-metadata stop (or
the default `price * 0.95`); `test_quantity` is `config.TEST_QUANTITY`;
`order_ok` is the outcome of `_place_order` (the broker collaborator,
including its retry loop).  The trailing
`strategy_manager.strategies[symbol].update_position` call touches no
`RiskManager` state and is omitted. -/
def entryAfterSizing (mode : TradingMode) (rm : RiskManager)
    (symbol : String) (side : Side) (price stop_loss : ℚ) (quantity : ℤ)
    (order_ok : Bool) : Bool × RiskManager :=
  if !(open_position rm symbol side quantity price (some stop_loss)).1 then
    (false, (open_position rm symbol side quantity price (some stop_loss)).2)
  else
    match mode with
    | .live =>
      if order_ok then
        (true, (open_position rm symbol side quantity price
          (some stop_loss)).2)
      else
        (false, (close_position (open_position rm symbol side quantity
          price (some stop_loss)).2 symbol none).2)
    | .paper =>
      (true, (open_position rm symbol side quantity price (some stop_loss)).2)

def execute_entry_signal (mode : TradingMode) (rm : RiskManager)
    (symbol : String) (side : Side) (price stop_loss : ℚ)
    (test_quantity : ℤ) (order_ok : Bool) : Bool × RiskManager :=
  if calculate_position_size rm symbol price stop_loss side = 0 then
    (false, rm)
  else
    entryAfterSizing mode rm symbol side price stop_loss
      (match mode with
      | .paper => min (calculate_position_size rm symbol price stop_loss
          side) test_quantity
      | .live => calculate_position_size rm symbol price stop_loss side)
      order_ok

/-! ### Helper lemmas about the association-list dictionary -/

theorem dictGet_eq_none_of_contains_false {d : List (String × Position)}
    {k : String} (h : dictContains d k = false) : dictGet d k = none := by
  unfold dictGet
  rw [List.find?_eq_none.mpr]
  · rfl
  · intro p hp
    simp only [dictContains, List.any_eq_false] at h
    simpa using h p hp

theorem dictContains_eq_false_of_get_none {d : List (String × Position)}
    {k : String} (h : dictGet d k = none) : dictContains d k = false := by
  unfold dictGet at h
  unfold dictContains
  rcases hf : d.find? (fun p => p.1 == k) with _ | p
  · simp only [List.any_eq_false]
    intro p hp
    have := List.find?_eq_none.mp hf p hp
    simpa using this
  · rw [hf] at h
    simp at h

theorem find?_eq_none_of_dictGet_none {d : List (String × Position)}
    {k : String} (h : dictGet d k = none) :
    d.find? (fun p => p.1 == k) = none := by
  unfold dictGet at h
  rcases hf : d.find? (fun p => p.1 == k) with _ | p
  · exact hf
  · rw [hf] at h; simp at h

theorem dictGet_cons (a : String × Position) (d : List (String × Position))
    (k : String) :
    dictGet (a :: d) k = if a.1 == k then some a.2 else dictGet d k := by
  unfold dictGet
  rw [List.find?_cons]
  cases a.1 == k <;> simp

theorem dictGet_append_singleton {k : String} (v : Position) :
    ∀ {d : List (String × Position)}, dictGet d k = none →
      dictGet (d ++ [(k, v)]) k = some v := by
  intro d
  induction d with
  | nil => intro _; simp [dictGet]
  | cons a d ih =>
    intro h
    rw [dictGet_cons] at h
    rw [List.cons_append, dictGet_cons]
    cases ha : (a.1 == k) with
    | true => rw [ha] at h; simp at h
    | false =>
      rw [ha] at h
      simp only [Bool.false_eq_true, if_false] at h ⊢
      exact ih h

theorem dictErase_append_singleton {d : List (String × Position)} {k : String}
    (v : Position) (h : dictGet d k = none) :
    dictErase (d ++ [(k, v)]) k = d := by
  unfold dictErase
  have hall := List.find?_eq_none.mp (find?_eq_none_of_dictGet_none h)
  rw [List.filter_append]
  have h1 : d.filter (fun p => !(p.1 == k)) = d := by
    apply List.filter_eq_self.mpr
    intro p hp
    have := hall p hp
    simpa using this
  simp [h1]

/-- `closePnl` always equals the directional P&L formula (the
`exit = current` branch computes `unrealized_pnl`, which agrees). -/
theorem closePnl_eq (position : Position) (exit_price : ℚ) :
    closePnl position exit_price =
      match position.side with
      | .long => (exit_price - position.entry_price) * position.quantity
      | .short => (position.entry_price - exit_price) * position.quantity := by
  unfold closePnl Position.unrealized_pnl
  by_cases hx : exit_price = position.current_price
  · rw [if_pos hx]
    rcases position.side with _ | _ <;> simp [hx]
  · rw [if_neg hx]

/-- Characterization of `open_position` on a symbol with no existing
position, positive quantity and a nonzero configured stop-loss
percentage: it succeeds, appends the new position, and debits
`quantity * entry_price` from the portfolio value. -/
theorem open_position_fresh (rm : RiskManager) (symbol : String)
    (side : Side) (quantity : ℤ) (entry_price : ℚ) (stop_loss? : Option ℚ)
    (hfresh : dictGet rm.positions symbol = none) (hq : 0 < quantity)
    (hslp : rm.stop_loss_percent ≠ 0) :
    open_position rm symbol side quantity entry_price stop_loss? =
      (true,
        { rm with
          positions := rm.positions ++
            [(symbol, openedPosition rm.stop_loss_percent
              rm.target_profit_percent symbol side quantity entry_price
              stop_loss?)]
          portfolio_value :=
            rm.portfolio_value - quantity * entry_price }) := by
  have hcontains := dictContains_eq_false_of_get_none hfresh
  have hce : closeExisting rm symbol = rm := by
    unfold closeExisting
    rw [hcontains]
    rfl
  unfold open_position
  rw [if_neg (not_le.mpr hq)]
  simp only [hce, if_neg hslp]
  unfold dictSet
  rw [hcontains]
  simp

/-- Characterization of `close_position` when no position exists. -/
theorem close_position_none (rm : RiskManager) (symbol : String)
    (exit_price? : Option ℚ) (h : dictGet rm.positions symbol = none) :
    close_position rm symbol exit_price? = (false, rm) := by
  unfold close_position
  rw [h]

/-- Characterization of `close_position` when the position exists. -/
theorem close_position_some (rm : RiskManager) (symbol : String)
    (exit_price? : Option ℚ) (position : Position)
    (h : dictGet rm.positions symbol = some position) :
    close_position rm symbol exit_price? =
      (decide (position.entry_price * position.quantity ≠ 0),
        { rm with
          portfolio_value := rm.portfolio_value +
            (position.quantity * (exit_price?.getD position.current_price)) +
            closePnl position (exit_price?.getD position.current_price)
          trade_history := rm.trade_history ++
            [⟨symbol, position.side, position.quantity, position.entry_price,
              exit_price?.getD position.current_price,
              closePnl position (exit_price?.getD position.current_price)⟩]
          daily_pnl := rm.daily_pnl +
            closePnl position (exit_price?.getD position.current_price)
          positions := dictErase rm.positions symbol }) := by
  unfold close_position
  rw [h]

/-- C8 counterexample state: the freshly initialised `RiskManager` with the
shipped `config/settings.py` values and no open positions. -/
def rmBase : RiskManager :=
  { positions := []
    portfolio_value := 100000
    daily_start_value := 100000
    max_positions := 10
    max_daily_loss := 50000
    max_position_size := 100000
    position_size_percent := 1/50
    stop_loss_percent := 1/20
    target_profit_percent := 1/10
    lot_size := [("nifty", 75), ("banknifty", 35)]
    daily_pnl := 0
    peak_portfolio_value := 100000
    max_drawdown := 0
    trade_history := []
    daily_loss_limit_hit := false
    portfolio_stop_active := false }

/-- C8 (counterexample): `close_position` on a symbol with no open
position returns `False`, not the claimed no-op success `true`: on the
freshly initialised manager, closing the untracked symbol `RELIANCE`
yields success flag `false`. -/
theorem close_position_missing_returns_false :
    (close_position rmBase "RELIANCE" none).1 = false := by
  decide

/-- C8 (amended): for every symbol with no open Position,
`close_position` is a no-op that returns `False`: the position set,
portfolio value, trade history and daily P&L are all left unchanged, but
the success flag is `false`, not `true`. -/
theorem close_position_missing_noop (rm : RiskManager) (symbol : String)
    (exit_price? : Option ℚ) (h : dictGet rm.positions symbol = none) :
    close_position rm symbol exit_price? = (false, rm) := by
  unfold close_position
  rw [h]

/-- Witness for `close_position_missing_noop` at a concrete state. -/
theorem close_position_missing_noop_witness :
    close_position rmBase "RELIANCE" none = (false, rmBase) :=
  close_position_missing_noop rmBase "RELIANCE" none (by decide)

/-- C10: opening a position (fresh symbol) at entry `e` and closing it at
exit `p` with no activity in between changes `portfolio_value` by
exactly `2*(p - e)*q` for a long position and by exactly `0` for a short
position: the open debits `q*e`, the close credits `q*p` plus the
realized P&L, which is `(p-e)*q` for long and `(e-p)*q` for short. -/
theorem open_close_portfolio_delta (rm : RiskManager) (symbol : String)
    (side : Side) (q : ℤ) (e p : ℚ) (stop? : Option ℚ)
    (hfresh : dictGet rm.positions symbol = none) (hq : 0 < q)
    (hslp : rm.stop_loss_percent ≠ 0) :
    (close_position (open_position rm symbol side q e stop?).2 symbol
        (some p)).2.portfolio_value - rm.portfolio_value =
      match side with
      | .long => 2 * (p - e) * q
      | .short => 0 := by
  rw [open_position_fresh rm symbol side q e stop? hfresh hq hslp]
  rw [close_position_some _ symbol (some p)
    (openedPosition rm.stop_loss_percent rm.target_profit_percent symbol side
      q e stop?)
    (dictGet_append_singleton _ hfresh)]
  rw [closePnl_eq]
  rcases side with _ | _ <;> simp [openedPosition] <;> ring

/-- Witness for `open_close_portfolio_delta`: a long 10-lot opened at 100
and closed at 110 moves the portfolio value by 200. -/
theorem open_close_portfolio_delta_witness :
    (close_position (open_position rmBase "RELIANCE" .long 10 100
        (some 95)).2 "RELIANCE" (some 110)).2.portfolio_value -
      rmBase.portfolio_value = 2 * (110 - 100) * 10 := by
  exact open_close_portfolio_delta rmBase "RELIANCE" .long 10 100 110
    (some 95) (by with_unfolding_all decide) (by decide)
    (by with_unfolding_all decide)

/-! ### More dictionary lemmas -/

/-- Number of entries stored under a key. -/
def countKey (d : List (String × Position)) (k : String) : ℕ :=
  (d.filter (fun p => p.1 == k)).length

theorem dictGet_some_of_contains {d : List (String × Position)} {k : String}
    (h : dictContains d k = true) : ∃ v, dictGet d k = some v := by
  unfold dictContains at h
  rcases List.any_eq_true.mp h with ⟨p, hp, hpk⟩
  rcases hf : d.find? (fun q => q.1 == k) with _ | q
  · exact absurd hpk (by simpa using List.find?_eq_none.mp hf p hp)
  · exact ⟨q.2, by unfold dictGet; rw [hf]; rfl⟩

theorem dictGet_dictErase_self (d : List (String × Position)) (k : String) :
    dictGet (dictErase d k) k = none := by
  unfold dictGet dictErase
  rw [List.find?_eq_none.mpr]
  · rfl
  · intro p hp
    have := (List.mem_filter.mp hp).2
    simpa using this

theorem countKey_dictErase_self (d : List (String × Position)) (k : String) :
    countKey (dictErase d k) k = 0 := by
  unfold countKey dictErase
  rw [List.length_eq_zero, List.filter_filter]
  apply List.filter_eq_nil_iff.mpr
  intro p _
  cases p.1 == k <;> simp

theorem countKey_append_singleton_self (d : List (String × Position))
    (k : String) (v : Position) :
    countKey (d ++ [(k, v)]) k = countKey d k + 1 := by
  unfold countKey
  rw [List.filter_append, List.length_append]
  simp

theorem countKey_eq_zero_of_get_none {d : List (String × Position)}
    {k : String} (h : dictGet d k = none) : countKey d k = 0 := by
  have hall := List.find?_eq_none.mp (find?_eq_none_of_dictGet_none h)
  unfold countKey
  rw [List.length_eq_zero]
  exact List.filter_eq_nil_iff.mpr hall

/-- After `closeExisting`, the symbol has no tracked entry. -/
theorem closeExisting_not_contains (rm : RiskManager) (symbol : String) :
    dictGet (closeExisting rm symbol).positions symbol = none := by
  unfold closeExisting
  cases hc : dictContains rm.positions symbol with
  | false =>
    simp only [Bool.false_eq_true, if_false]
    exact dictGet_eq_none_of_contains_false hc
  | true =>
    rcases dictGet_some_of_contains hc with ⟨v, hv⟩
    rw [if_pos rfl, close_position_some rm symbol none v hv]
    exact dictGet_dictErase_self _ _

/-! ### Field-preservation lemmas -/

theorem close_position_fields (rm : RiskManager) (s : String)
    (e : Option ℚ) :
    (close_position rm s e).2.daily_loss_limit_hit = rm.daily_loss_limit_hit
    ∧ (close_position rm s e).2.portfolio_stop_active =
        rm.portfolio_stop_active
    ∧ (close_position rm s e).2.stop_loss_percent = rm.stop_loss_percent
    ∧ (close_position rm s e).2.target_profit_percent =
        rm.target_profit_percent
    ∧ (close_position rm s e).2.max_drawdown = rm.max_drawdown := by
  rcases h : dictGet rm.positions s with _ | pos
  · rw [close_position_none rm s e h]
    exact ⟨rfl, rfl, rfl, rfl, rfl⟩
  · rw [close_position_some rm s e pos h]
    exact ⟨rfl, rfl, rfl, rfl, rfl⟩

theorem closeExisting_fields (rm : RiskManager) (s : String) :
    (closeExisting rm s).daily_loss_limit_hit = rm.daily_loss_limit_hit
    ∧ (closeExisting rm s).portfolio_stop_active = rm.portfolio_stop_active
    ∧ (closeExisting rm s).stop_loss_percent = rm.stop_loss_percent
    ∧ (closeExisting rm s).target_profit_percent = rm.target_profit_percent
    ∧ (closeExisting rm s).max_drawdown = rm.max_drawdown := by
  unfold closeExisting
  cases dictContains rm.positions s
  · exact ⟨rfl, rfl, rfl, rfl, rfl⟩
  · simpa using close_position_fields rm s none

theorem open_position_fields (rm : RiskManager) (s : String) (sd : Side)
    (q : ℤ) (e : ℚ) (st : Option ℚ) :
    (open_position rm s sd q e st).2.daily_loss_limit_hit =
      rm.daily_loss_limit_hit
    ∧ (open_position rm s sd q e st).2.portfolio_stop_active =
        rm.portfolio_stop_active
    ∧ (open_position rm s sd q e st).2.stop_loss_percent =
        rm.stop_loss_percent
    ∧ (open_position rm s sd q e st).2.target_profit_percent =
        rm.target_profit_percent
    ∧ (open_position rm s sd q e st).2.max_drawdown = rm.max_drawdown := by
  unfold open_position
  by_cases hq : q ≤ 0
  · rw [if_pos hq]
    exact ⟨rfl, rfl, rfl, rfl, rfl⟩
  · rw [if_neg hq]
    have hce := closeExisting_fields rm s
    by_cases hslp : (closeExisting rm s).stop_loss_percent = 0
    · simp only [if_pos hslp]
      exact hce
    · simp only [if_neg hslp]
      exact hce

theorem check_stop_loss_fields (rm : RiskManager) (pos : Position) :
    (check_stop_loss rm pos).2.daily_loss_limit_hit = rm.daily_loss_limit_hit
    ∧ (check_stop_loss rm pos).2.portfolio_stop_active =
        rm.portfolio_stop_active
    ∧ (check_stop_loss rm pos).2.max_drawdown = rm.max_drawdown := by
  unfold check_stop_loss
  rcases close_position_fields rm pos.symbol (some (pos.stop_loss.getD 0))
    with ⟨h1, h2, _, _, h5⟩
  split
  · exact ⟨rfl, rfl, rfl⟩
  · split
    · exact ⟨h1, h2, h5⟩
    · exact ⟨rfl, rfl, rfl⟩

theorem check_take_profit_fields (rm : RiskManager) (pos : Position) :
    (check_take_profit rm pos).2.daily_loss_limit_hit =
      rm.daily_loss_limit_hit
    ∧ (check_take_profit rm pos).2.portfolio_stop_active =
        rm.portfolio_stop_active
    ∧ (check_take_profit rm pos).2.max_drawdown = rm.max_drawdown := by
  unfold check_take_profit
  rcases close_position_fields rm pos.symbol (some (pos.take_profit.getD 0))
    with ⟨h1, h2, _, _, h5⟩
  split
  · exact ⟨rfl, rfl, rfl⟩
  · split
    · exact ⟨h1, h2, h5⟩
    · exact ⟨rfl, rfl, rfl⟩

theorem updateOneChecks_fields (rm : RiskManager) (pos : Position) :
    (updateOneChecks rm pos).daily_loss_limit_hit = rm.daily_loss_limit_hit
    ∧ (updateOneChecks rm pos).portfolio_stop_active =
        rm.portfolio_stop_active := by
  unfold updateOneChecks
  rcases check_stop_loss_fields rm pos with ⟨h1, h2, _⟩
  rcases hsl : check_stop_loss rm pos with ⟨b, rm1⟩
  rw [hsl] at h1 h2
  rcases check_take_profit_fields rm1 pos with ⟨h3, h4, _⟩
  cases b
  · exact ⟨h3.trans h1, h4.trans h2⟩
  · exact ⟨h1, h2⟩

theorem updateOne_fields (rm : RiskManager) (u : String × ℚ) :
    (updateOne rm u).daily_loss_limit_hit = rm.daily_loss_limit_hit
    ∧ (updateOne rm u).portfolio_stop_active = rm.portfolio_stop_active := by
  unfold updateOne
  cases dictContains rm.positions u.1
  · exact ⟨rfl, rfl⟩
  · simp only [if_true]
    rcases dictGet (priceUpdated rm u).positions u.1 with _ | pos
    · exact ⟨rfl, rfl⟩
    · exact updateOneChecks_fields (priceUpdated rm u) pos

theorem foldl_updateOne_fields (rm : RiskManager)
    (us : List (String × ℚ)) :
    (us.foldl updateOne rm).daily_loss_limit_hit = rm.daily_loss_limit_hit
    ∧ (us.foldl updateOne rm).portfolio_stop_active =
        rm.portfolio_stop_active := by
  induction us generalizing rm with
  | nil => exact ⟨rfl, rfl⟩
  | cons u us ih =>
    rcases ih (updateOne rm u) with ⟨h1, h2⟩
    rcases updateOne_fields rm u with ⟨h3, h4⟩
    exact ⟨h1.trans h3, h2.trans h4⟩

theorem update_risk_metrics_fields (rm : RiskManager) :
    (update_risk_metrics rm).daily_loss_limit_hit = rm.daily_loss_limit_hit
    ∧ (update_risk_metrics rm).portfolio_stop_active =
        rm.portfolio_stop_active
    ∧ (update_risk_metrics rm).daily_pnl = rm.daily_pnl := by
  unfold update_risk_metrics
  split
  · exact ⟨rfl, rfl, rfl⟩
  · split
    · exact ⟨rfl, rfl, rfl⟩
    · exact ⟨rfl, rfl, rfl⟩

theorem close_all_positions_fields (rm : RiskManager) :
    (close_all_positions rm).daily_loss_limit_hit = rm.daily_loss_limit_hit
    ∧ (close_all_positions rm).portfolio_stop_active =
        rm.portfolio_stop_active := by
  unfold close_all_positions
  generalize (rm.positions.map (fun p => p.1)) = keys
  induction keys generalizing rm with
  | nil => exact ⟨rfl, rfl⟩
  | cons s keys ih =>
    rcases ih (close_position rm s none).2 with ⟨h1, h2⟩
    rcases close_position_fields rm s none with ⟨h3, h4, _, _, _⟩
    exact ⟨h1.trans h3, h2.trans h4⟩

theorem checkDailyLoss_mono (rm : RiskManager) :
    (rm.daily_loss_limit_hit = true →
      (checkDailyLoss rm).daily_loss_limit_hit = true)
    ∧ ((checkDailyLoss rm).portfolio_stop_active =
        rm.portfolio_stop_active) := by
  unfold checkDailyLoss
  split
  · next hc =>
    refine ⟨fun h => ?_, ?_⟩
    · rw [h] at hc
      simp at hc
    · exact (close_all_positions_fields _).2.trans rfl
  · exact ⟨fun h => h, rfl⟩

theorem checkDrawdownStop_mono (rm : RiskManager) :
    ((checkDrawdownStop rm).daily_loss_limit_hit = rm.daily_loss_limit_hit)
    ∧ (rm.portfolio_stop_active = true →
      (checkDrawdownStop rm).portfolio_stop_active = true) := by
  unfold checkDrawdownStop
  split
  · exact ⟨(close_all_positions_fields _).1.trans rfl,
      fun _ => (close_all_positions_fields _).2.trans rfl⟩
  · exact ⟨rfl, fun h => h⟩

/-- `_check_portfolio_limits` never clears a set breaker flag. -/
theorem check_portfolio_limits_mono (rm : RiskManager) :
    (rm.daily_loss_limit_hit = true →
      (check_portfolio_limits rm).daily_loss_limit_hit = true)
    ∧ (rm.portfolio_stop_active = true →
      (check_portfolio_limits rm).portfolio_stop_active = true) := by
  unfold check_portfolio_limits
  constructor
  · intro h
    exact (checkDrawdownStop_mono (checkDailyLoss rm)).1.trans
      ((checkDailyLoss_mono rm).1 h)
  · intro h
    exact (checkDrawdownStop_mono (checkDailyLoss rm)).2
      ((checkDailyLoss_mono rm).2.trans h)

theorem update_positions_mono (rm : RiskManager)
    (us : List (String × ℚ)) :
    (rm.daily_loss_limit_hit = true →
      (update_positions rm us).daily_loss_limit_hit = true)
    ∧ (rm.portfolio_stop_active = true →
      (update_positions rm us).portfolio_stop_active = true) := by
  unfold update_positions
  rcases foldl_updateOne_fields rm us with ⟨h1, h2⟩
  rcases update_risk_metrics_fields (us.foldl updateOne rm) with ⟨h3, h4, _⟩
  rcases check_portfolio_limits_mono
    (update_risk_metrics (us.foldl updateOne rm)) with ⟨h5, h6⟩
  exact ⟨fun h => h5 (h3.trans (h1.trans h)),
         fun h => h6 (h4.trans (h2.trans h))⟩

/-- The operations of the `RiskManager` session interface that the spec
allows between breaker trip and day boundary. -/
inductive RMOp where
  | update (price_updates : List (String × ℚ))
  | openp (symbol : String) (side : Side) (quantity : ℤ) (entry_price : ℚ)
      (stop_loss? : Option ℚ)
  | closep (symbol : String) (exit_price? : Option ℚ)

/-- Apply one `RiskManager` operation to the state. -/
def applyOp (rm : RiskManager) (op : RMOp) : RiskManager :=
  match op with
  | .update us => update_positions rm us
  | .openp s sd q e st => (open_position rm s sd q e st).2
  | .closep s e => (close_position rm s e).2

/-- Apply a sequence of `RiskManager` operations in order. -/
def applyOps (rm : RiskManager) (ops : List RMOp) : RiskManager :=
  ops.foldl applyOp rm

theorem applyOp_mono (rm : RiskManager) (op : RMOp) :
    (rm.daily_loss_limit_hit = true →
      (applyOp rm op).daily_loss_limit_hit = true)
    ∧ (rm.portfolio_stop_active = true →
      (applyOp rm op).portfolio_stop_active = true) := by
  rcases op with us | ⟨s, sd, q, e, st⟩ | ⟨s, e⟩
  · exact update_positions_mono rm us
  · rcases open_position_fields rm s sd q e st with ⟨h1, h2, _⟩
    exact ⟨fun h => h1.trans h, fun h => h2.trans h⟩
  · rcases close_position_fields rm s e with ⟨h1, h2, _⟩
    exact ⟨fun h => h1.trans h, fun h => h2.trans h⟩

theorem applyOps_mono (rm : RiskManager) (ops : List RMOp) :
    (rm.daily_loss_limit_hit = true →
      (applyOps rm ops).daily_loss_limit_hit = true)
    ∧ (rm.portfolio_stop_active = true →
      (applyOps rm ops).portfolio_stop_active = true) := by
  induction ops generalizing rm with
  | nil => exact ⟨id, id⟩
  | cons op ops ih =>
    rcases applyOp_mono rm op with ⟨h1, h2⟩
    rcases ih (applyOp rm op) with ⟨h3, h4⟩
    exact ⟨fun h => h3 (h1 h), fun h => h4 (h2 h)⟩

/-- C7 counterexample state: a session in which both breakers have
tripped. -/
def rmTripped : RiskManager :=
  { rmBase with
    daily_loss_limit_hit := true
    portfolio_stop_active := true
    daily_pnl := -60000
    max_drawdown := 1/4 }

/-- C7 (counterexample): `reset_daily_stats` does not clear both
breakers: with `portfolio_stop_active = true` it stays `true` after the
reset (only `daily_loss_limit_hit` is cleared), refuting the claim that
a single `reset_daily_stats` call clears both breakers at the day
boundary. -/
theorem reset_daily_stats_keeps_portfolio_stop :
    (reset_daily_stats rmTripped).portfolio_stop_active = true := rfl

/-- C7 (amended): both circuit breakers are one-way latches within a
session — no sequence of `update_positions` / `open_position` /
`close_position` calls clears `daily_loss_limit_hit` or
`portfolio_stop_active` once set — and `reset_daily_stats` clears the
daily-loss breaker but leaves `portfolio_stop_active` unchanged (the
drawdown breaker is never reset by it). -/
theorem breaker_one_way_latch :
    (∀ (rm : RiskManager) (ops : List RMOp),
      rm.daily_loss_limit_hit = true →
        (applyOps rm ops).daily_loss_limit_hit = true)
    ∧ (∀ (rm : RiskManager) (ops : List RMOp),
      rm.portfolio_stop_active = true →
        (applyOps rm ops).portfolio_stop_active = true)
    ∧ (∀ rm : RiskManager,
      (reset_daily_stats rm).daily_loss_limit_hit = false)
    ∧ (∀ rm : RiskManager,
      (reset_daily_stats rm).portfolio_stop_active =
        rm.portfolio_stop_active) :=
  ⟨fun rm ops => (applyOps_mono rm ops).1,
   fun rm ops => (applyOps_mono rm ops).2,
   fun _ => rfl,
   fun _ => rfl⟩

/-- Witness for `breaker_one_way_latch`: a tripped session stays tripped
through a profitable price-update cycle, an open and a close; the reset
clears only the daily-loss flag. -/
theorem breaker_one_way_latch_witness :
    (applyOps rmTripped
        [RMOp.update [("NIFTY", 120)],
         RMOp.openp "NIFTY" Side.long 10 100 (some 95),
         RMOp.closep "NIFTY" (some 120)]).daily_loss_limit_hit = true
    ∧ (applyOps rmTripped
        [RMOp.update [("NIFTY", 120)],
         RMOp.openp "NIFTY" Side.long 10 100 (some 95),
         RMOp.closep "NIFTY" (some 120)]).portfolio_stop_active = true
    ∧ (reset_daily_stats rmTripped).daily_loss_limit_hit = false
    ∧ (reset_daily_stats rmTripped).portfolio_stop_active =
        rmTripped.portfolio_stop_active :=
  ⟨breaker_one_way_latch.1 rmTripped _ rfl,
   breaker_one_way_latch.2.1 rmTripped _ rfl,
   breaker_one_way_latch.2.2.1 rmTripped,
   breaker_one_way_latch.2.2.2 rmTripped⟩

/-! ### Key uniqueness of the position dictionary -/

/-- The keys of the position dictionary are pairwise distinct: the
at-most-one-position-per-symbol representation invariant. -/
def keysNodup (d : List (String × Position)) : Prop :=
  (d.map (fun p => p.1)).Nodup

theorem keys_setCurrentPrice (d : List (String × Position)) (s : String)
    (x : ℚ) :
    (setCurrentPrice d s x).map (fun p => p.1) = d.map (fun p => p.1) := by
  unfold setCurrentPrice
  rw [List.map_map]
  apply List.map_congr_left
  intro p _
  show (if p.1 == s then _ else p).1 = p.1
  split <;> rfl

theorem keysNodup_dictErase {d : List (String × Position)} (k : String)
    (h : keysNodup d) : keysNodup (dictErase d k) := by
  unfold keysNodup at h ⊢
  exact (((List.filter_sublist d).map (fun p => p.1)).nodup h)

theorem not_mem_keys_of_get_none {d : List (String × Position)} {k : String}
    (h : dictGet d k = none) : k ∉ d.map (fun p => p.1) := by
  have hall := List.find?_eq_none.mp (find?_eq_none_of_dictGet_none h)
  intro hmem
  rcases List.mem_map.mp hmem with ⟨p, hp, hpk⟩
  exact absurd (by simpa using hpk) (hall p hp)

theorem keysNodup_dictSet {d : List (String × Position)} (k : String)
    (v : Position) (h : keysNodup d) : keysNodup (dictSet d k v) := by
  unfold dictSet
  by_cases hc : dictContains d k = true
  · rw [if_pos hc]
    unfold keysNodup at h ⊢
    rw [List.map_map]
    have : d.map ((fun p : String × Position => p.1) ∘
        (fun p => if p.1 == k then (p.1, v) else p)) =
        d.map (fun p => p.1) := by
      apply List.map_congr_left
      intro p _
      show (if p.1 == k then _ else p).1 = p.1
      split <;> rfl
    rw [this]
    exact h
  · rw [if_neg hc]
    unfold keysNodup at h ⊢
    rw [List.map_append]
    have hk : k ∉ d.map (fun p => p.1) :=
      not_mem_keys_of_get_none
        (dictGet_eq_none_of_contains_false (by simpa using hc))
    simp [List.nodup_append, h, hk]

theorem keysNodup_close (rm : RiskManager) (s : String) (e : Option ℚ)
    (h : keysNodup rm.positions) :
    keysNodup (close_position rm s e).2.positions := by
  rcases hg : dictGet rm.positions s with _ | pos
  · rw [close_position_none rm s e hg]
    exact h
  · rw [close_position_some rm s e pos hg]
    exact keysNodup_dictErase s h

theorem keysNodup_closeExisting (rm : RiskManager) (s : String)
    (h : keysNodup rm.positions) :
    keysNodup (closeExisting rm s).positions := by
  unfold closeExisting
  split
  · exact keysNodup_close rm s none h
  · exact h

theorem keysNodup_open (rm : RiskManager) (s : String) (sd : Side) (q : ℤ)
    (e : ℚ) (st : Option ℚ) (h : keysNodup rm.positions) :
    keysNodup (open_position rm s sd q e st).2.positions := by
  unfold open_position
  split
  · exact h
  · split
    · exact keysNodup_closeExisting rm s h
    · exact keysNodup_dictSet s _ (keysNodup_closeExisting rm s h)

theorem keysNodup_check_stop_loss (rm : RiskManager) (pos : Position)
    (h : keysNodup rm.positions) :
    keysNodup (check_stop_loss rm pos).2.positions := by
  unfold check_stop_loss
  split
  · exact h
  · split
    · exact keysNodup_close rm pos.symbol _ h
    · exact h

theorem keysNodup_check_take_profit (rm : RiskManager) (pos : Position)
    (h : keysNodup rm.positions) :
    keysNodup (check_take_profit rm pos).2.positions := by
  unfold check_take_profit
  split
  · exact h
  · split
    · exact keysNodup_close rm pos.symbol _ h
    · exact h

theorem keysNodup_updateOneChecks (rm : RiskManager) (pos : Position)
    (h : keysNodup rm.positions) :
    keysNodup (updateOneChecks rm pos).positions := by
  unfold updateOneChecks
  rcases hsl : check_stop_loss rm pos with ⟨b, rm1⟩
  have h1 : keysNodup rm1.positions := by
    have := keysNodup_check_stop_loss rm pos h
    rw [hsl] at this
    exact this
  cases b
  · exact keysNodup_check_take_profit rm1 pos h1
  · exact h1

theorem keysNodup_updateOne (rm : RiskManager) (u : String × ℚ)
    (h : keysNodup rm.positions) :
    keysNodup (updateOne rm u).positions := by
  have hP : keysNodup (priceUpdated rm u).positions := by
    show ((setCurrentPrice rm.positions u.1 u.2).map (fun p => p.1)).Nodup
    rw [keys_setCurrentPrice]
    exact h
  unfold updateOne
  split
  · rcases dictGet (priceUpdated rm u).positions u.1 with _ | pos
    · exact hP
    · exact keysNodup_updateOneChecks (priceUpdated rm u) pos hP
  · exact h

theorem keysNodup_close_all (rm : RiskManager) (h : keysNodup rm.positions) :
    keysNodup (close_all_positions rm).positions := by
  unfold close_all_positions
  generalize (rm.positions.map (fun p => p.1)) = keys
  induction keys generalizing rm with
  | nil => exact h
  | cons s keys ih => exact ih _ (keysNodup_close rm s none h)

theorem update_risk_metrics_positions (rm : RiskManager) :
    (update_risk_metrics rm).positions = rm.positions := by
  unfold update_risk_metrics
  split
  · rfl
  · split <;> rfl

theorem keysNodup_update_positions (rm : RiskManager)
    (us : List (String × ℚ)) (h : keysNodup rm.positions) :
    keysNodup (update_positions rm us).positions := by
  unfold update_positions check_portfolio_limits
  have h1 : keysNodup (us.foldl updateOne rm).positions := by
    induction us generalizing rm with
    | nil => exact h
    | cons u us ih => exact ih _ (keysNodup_updateOne rm u h)
  have h2 : keysNodup
      (update_risk_metrics (us.foldl updateOne rm)).positions := by
    rw [update_risk_metrics_positions]
    exact h1
  have h3 : keysNodup
      (checkDailyLoss (update_risk_metrics (us.foldl updateOne rm))).positions := by
    unfold checkDailyLoss
    split
    · exact keysNodup_close_all _ h2
    · exact h2
  unfold checkDrawdownStop
  split
  · exact keysNodup_close_all _ h3
  · exact h3

theorem keysNodup_applyOps (rm : RiskManager) (ops : List RMOp)
    (h : keysNodup rm.positions) :
    keysNodup (applyOps rm ops).positions := by
  induction ops generalizing rm with
  | nil => exact h
  | cons op ops ih =>
    refine ih _ ?_
    rcases op with us | ⟨s, sd, q, e, st⟩ | ⟨s, e⟩
    · exact keysNodup_update_positions rm us h
    · exact keysNodup_open rm s sd q e st h
    · exact keysNodup_close rm s e h

theorem countKey_le_one_of_keysNodup {d : List (String × Position)}
    (h : keysNodup d) (s : String) : countKey d s ≤ 1 := by
  unfold keysNodup at h
  induction d with
  | nil => exact Nat.zero_le 1
  | cons a d ih =>
    rw [List.map_cons, List.nodup_cons] at h
    unfold countKey
    rw [List.filter_cons]
    by_cases ha : (a.1 == s) = true
    · simp only [ha, if_pos]
      have : d.filter (fun p => p.1 == s) = [] := by
        apply List.filter_eq_nil_iff.mpr
        intro p hp
        intro hps
        apply h.1
        rw [show a.1 = s from by simpa using ha]
        exact List.mem_map.mpr ⟨p, hp, by simpa using hps⟩
      simp [this]
    · simp only [ha]
      exact ih h.2

/-- Result of `open_position` with positive quantity and nonzero
configured stop percentage: the symbol maps to exactly the newly created
position (any previous position for it was closed first). -/
theorem open_position_into (rm : RiskManager) (X : String) (sd : Side)
    (q : ℤ) (e : ℚ) (st : Option ℚ) (hq : 0 < q)
    (hslp : rm.stop_loss_percent ≠ 0) :
    (open_position rm X sd q e st).1 = true
    ∧ dictGet (open_position rm X sd q e st).2.positions X =
        some (openedPosition rm.stop_loss_percent rm.target_profit_percent
          X sd q e st)
    ∧ countKey (open_position rm X sd q e st).2.positions X = 1 := by
  have hnone := closeExisting_not_contains rm X
  have hcf := (closeExisting_fields rm X).2.2.1
  have htf := (closeExisting_fields rm X).2.2.2.1
  have hcontains :
      dictContains (closeExisting rm X).positions X = false :=
    dictContains_eq_false_of_get_none hnone
  have hset : dictSet (closeExisting rm X).positions X
      (openedPosition (closeExisting rm X).stop_loss_percent
        (closeExisting rm X).target_profit_percent X sd q e st) =
      (closeExisting rm X).positions ++
      [(X, openedPosition rm.stop_loss_percent rm.target_profit_percent
          X sd q e st)] := by
    unfold dictSet
    rw [hcontains, hcf, htf]
    simp
  unfold open_position
  rw [if_neg (not_le.mpr hq), if_neg (by rw [hcf]; exact hslp)]
  refine ⟨rfl, ?_, ?_⟩
  · show dictGet (dictSet (closeExisting rm X).positions X _) X = _
    rw [hset]
    exact dictGet_append_singleton _ hnone
  · show countKey (dictSet (closeExisting rm X).positions X _) X = 1
    rw [hset, countKey_append_singleton_self,
      countKey_eq_zero_of_get_none hnone]

/-- C3: the `RiskManager` holds at most one open Position per symbol at
all times — starting from unique keys, every reachable state under
`update_positions` / `open_position` / `close_position` keeps the
position-dictionary keys unique, so each symbol has at most one entry —
and `open_position` on a symbol that already has a position closes it
first and replaces it: after two `open_position` calls for the same
symbol, exactly one entry exists for it and it carries the second call's
parameters. -/
theorem position_singleton_per_symbol :
    (∀ (rm : RiskManager) (ops : List RMOp),
      keysNodup rm.positions → keysNodup (applyOps rm ops).positions)
    ∧ (∀ (rm : RiskManager) (ops : List RMOp) (s : String),
      keysNodup rm.positions →
        countKey (applyOps rm ops).positions s ≤ 1)
    ∧ (∀ (rm : RiskManager) (X : String) (s1 s2 : Side) (q1 q2 : ℤ)
        (e1 e2 : ℚ) (st1 st2 : Option ℚ), 0 < q2 →
        rm.stop_loss_percent ≠ 0 →
        dictGet (open_position (open_position rm X s1 q1 e1 st1).2 X s2 q2
            e2 st2).2.positions X =
          some (openedPosition rm.stop_loss_percent
            rm.target_profit_percent X s2 q2 e2 st2)
        ∧ countKey (open_position (open_position rm X s1 q1 e1 st1).2 X s2
            q2 e2 st2).2.positions X = 1) := by
  refine ⟨fun rm ops h => keysNodup_applyOps rm ops h,
    fun rm ops s h =>
      countKey_le_one_of_keysNodup (keysNodup_applyOps rm ops h) s,
    fun rm X s1 s2 q1 q2 e1 e2 st1 st2 hq2 hslp => ?_⟩
  have hslp1 :
      (open_position rm X s1 q1 e1 st1).2.stop_loss_percent ≠ 0 := by
    rw [(open_position_fields rm X s1 q1 e1 st1).2.2.1]
    exact hslp
  have h := open_position_into (open_position rm X s1 q1 e1 st1).2 X s2 q2
    e2 st2 hq2 hslp1
  rw [(open_position_fields rm X s1 q1 e1 st1).2.2.1,
    (open_position_fields rm X s1 q1 e1 st1).2.2.2.1] at h
  exact ⟨h.2.1, h.2.2⟩

/-- Witness for `position_singleton_per_symbol`: opening NIFTY long then
short leaves exactly one NIFTY position with the short call's
parameters; any op sequence from the fresh manager keeps keys unique. -/
theorem position_singleton_per_symbol_witness :
    keysNodup (applyOps rmBase
        [RMOp.openp "NIFTY" Side.long 5 90 (some 85)]).positions
    ∧ countKey (applyOps rmBase
        [RMOp.openp "NIFTY" Side.long 5 90 (some 85)]).positions "NIFTY" ≤ 1
    ∧ (dictGet (open_position (open_position rmBase "NIFTY" Side.long 5 90
          (some 85)).2 "NIFTY" Side.short 7 100 none).2.positions "NIFTY" =
        some (openedPosition rmBase.stop_loss_percent
          rmBase.target_profit_percent "NIFTY" Side.short 7 100 none)
      ∧ countKey (open_position (open_position rmBase "NIFTY" Side.long 5
          90 (some 85)).2 "NIFTY" Side.short 7 100 none).2.positions
          "NIFTY" = 1) :=
  ⟨position_singleton_per_symbol.1 rmBase _ List.Pairwise.nil,
   position_singleton_per_symbol.2.1 rmBase _ "NIFTY" List.Pairwise.nil,
   position_singleton_per_symbol.2.2 rmBase "NIFTY" Side.long Side.short
     5 7 90 100 (some 85) none (by decide)
     (by with_unfolding_all decide)⟩

/-- `pyInt` is the floor on nonnegative arguments. -/
theorem pyInt_of_nonneg {q : ℚ} (h : 0 ≤ q) : pyInt q = ⌊q⌋ := if_pos h

/-- The final position-value re-check of `calculate_position_size` never
changes the result when the quantity was already clamped below
`max_position_size / entry`. -/
theorem sizeClamp_eq (rm : RiskManager) (e : ℚ) (he : 0 < e)
    (hmps : 0 ≤ rm.max_position_size) (q : ℤ)
    (hq : q ≤ ⌊rm.max_position_size / e⌋) :
    sizeClamp rm e q = max q 1 := by
  unfold sizeClamp
  by_cases h1 : 1 ≤ q
  · rw [max_eq_left h1]
    have hfloor : ((q : ℤ) : ℚ) ≤ rm.max_position_size / e := by
      calc ((q : ℤ) : ℚ) ≤ ((⌊rm.max_position_size / e⌋ : ℤ) : ℚ) := by
            exact_mod_cast hq
        _ ≤ rm.max_position_size / e := Int.floor_le _
    have hle : (q : ℚ) * e ≤ rm.max_position_size :=
      (le_div_iff₀ he).mp hfloor
    exact if_neg (not_lt.mpr hle)
  · push_neg at h1
    rw [max_eq_right h1.le]
    by_cases h2 : rm.max_position_size < ((1 : ℤ) : ℚ) * e
    · rw [if_pos h2, pyInt_of_nonneg (div_nonneg hmps he.le)]
      have hfl : ⌊rm.max_position_size / e⌋ = 0 := by
        apply Int.floor_eq_zero_iff.mpr
        constructor
        · exact div_nonneg hmps he.le
        · rw [div_lt_one he]
          calc rm.max_position_size < ((1 : ℤ) : ℚ) * e := h2
            _ = e := by push_cast; ring
      rw [hfl]
      exact max_eq_right (by norm_num)
    · rw [if_neg h2]

/-- C5: `calculate_position_size` returns 0 on any refusal condition
(maximum position count reached, daily-loss breaker tripped, or
non-positive side-adjusted risk per unit), and otherwise — for positive
entry price, nonnegative position-size cap and risk budget, and positive
lot sizes — equals `floor(risk_per_trade / risk_per_unit)` clamped by
`max_position_size / entry`, rounded down to a lot multiple when the
symbol has one, and floored at 1; on the spec scenario (entry 100, stop
95, 2% of a 100000 portfolio) it yields 400. -/
theorem calculate_position_size_spec :
    (∀ (rm : RiskManager) (symbol : String) (e st : ℚ) (sd : Side),
      rm.max_positions ≤ rm.positions.length →
        calculate_position_size rm symbol e st sd = 0)
    ∧ (∀ (rm : RiskManager) (symbol : String) (e st : ℚ) (sd : Side),
      rm.daily_loss_limit_hit = true →
        calculate_position_size rm symbol e st sd = 0)
    ∧ (∀ (rm : RiskManager) (symbol : String) (e st : ℚ) (sd : Side),
      riskPerUnit sd e st ≤ 0 →
        calculate_position_size rm symbol e st sd = 0)
    ∧ (∀ (rm : RiskManager) (symbol : String) (e st : ℚ) (sd : Side),
      rm.positions.length < rm.max_positions →
      rm.daily_loss_limit_hit = false →
      0 < riskPerUnit sd e st →
      0 < e →
      0 ≤ rm.max_position_size →
      0 ≤ rm.portfolio_value * rm.position_size_percent →
      (∀ p ∈ rm.lot_size, 0 < p.2) →
      (rm.lot_size.find? (fun p => p.1 == symbol.toUpper) = none →
        calculate_position_size rm symbol e st sd =
          max (min ⌊rm.portfolio_value * rm.position_size_percent /
              riskPerUnit sd e st⌋ ⌊rm.max_position_size / e⌋) 1)
      ∧ (∀ ls, rm.lot_size.find? (fun p => p.1 == symbol.toUpper) =
          some ls →
        calculate_position_size rm symbol e st sd =
          max (Int.fdiv
            (min ⌊rm.portfolio_value * rm.position_size_percent /
                riskPerUnit sd e st⌋ ⌊rm.max_position_size / e⌋)
            ls.2 * ls.2) 1))
    ∧ calculate_position_size rmBase "RELIANCE" 100 95 .long = 400 := by
  refine ⟨?_, ?_, ?_, ?_, ?_⟩
  · intro rm symbol e st sd h
    unfold calculate_position_size
    rw [if_pos h]
  · intro rm symbol e st sd h
    simp [calculate_position_size, h]
  · intro rm symbol e st sd h
    simp [calculate_position_size, h]
  · intro rm symbol e st sd hlen hdll hrpu he hmps hrpt hlots
    have hrpt' : 0 ≤ rm.portfolio_value * rm.position_size_percent /
        riskPerUnit sd e st := div_nonneg hrpt (le_of_lt hrpu)
    have hmpe : 0 ≤ rm.max_position_size / e := div_nonneg hmps he.le
    have hrQ : riskQuantity rm e st sd =
        min ⌊rm.portfolio_value * rm.position_size_percent /
          riskPerUnit sd e st⌋ ⌊rm.max_position_size / e⌋ := by
      unfold riskQuantity
      rw [pyInt_of_nonneg hrpt', pyInt_of_nonneg hmpe]
    constructor
    · intro hf
      unfold calculate_position_size
      rw [if_neg (not_le.mpr hlen), hdll]
      simp only [Bool.false_eq_true, if_false]
      rw [if_neg (not_le.mpr hrpu), if_neg (ne_of_gt he), hf, hrQ]
      exact sizeClamp_eq rm e he hmps _ (min_le_right _ _)
    · intro ls hf
      have hls : 0 < ls.2 := hlots ls (List.mem_of_find?_eq_some hf)
      unfold calculate_position_size
      rw [if_neg (not_le.mpr hlen), hdll]
      simp only [Bool.false_eq_true, if_false]
      rw [if_neg (not_le.mpr hrpu), if_neg (ne_of_gt he), hf]
      show (if ls.2 = 0 then (0 : ℤ) else sizeClamp rm e
        (Int.fdiv (riskQuantity rm e st sd) ls.2 * ls.2)) = _
      rw [if_neg (ne_of_gt hls), hrQ]
      refine sizeClamp_eq rm e he hmps _ ?_
      have h1 : Int.fdiv
          (min ⌊rm.portfolio_value * rm.position_size_percent /
              riskPerUnit sd e st⌋ ⌊rm.max_position_size / e⌋)
          ls.2 * ls.2 ≤
          min ⌊rm.portfolio_value * rm.position_size_percent /
              riskPerUnit sd e st⌋ ⌊rm.max_position_size / e⌋ := by
        rw [Int.fdiv_eq_ediv _ (le_of_lt hls)]
        exact Int.ediv_mul_le _ (ne_of_gt hls)
      exact le_trans h1 (min_le_right _ _)
  · with_unfolding_all decide

/-- Witness for `calculate_position_size_spec`: each refusal branch and
the sizing formula evaluated at concrete states. -/
theorem calculate_position_size_spec_witness :
    calculate_position_size { rmBase with max_positions := 0 } "RELIANCE"
      100 95 .long = 0
    ∧ calculate_position_size { rmBase with daily_loss_limit_hit := true }
      "RELIANCE" 100 95 .long = 0
    ∧ calculate_position_size rmBase "RELIANCE" 100 100 .long = 0
    ∧ calculate_position_size rmBase "RELIANCE" 100 95 .long =
        max (min ⌊rmBase.portfolio_value * rmBase.position_size_percent /
            riskPerUnit .long 100 95⌋ ⌊rmBase.max_position_size / 100⌋) 1 :=
  ⟨calculate_position_size_spec.1 _ "RELIANCE" 100 95 .long (Nat.zero_le 0),
   calculate_position_size_spec.2.1 _ "RELIANCE" 100 95 .long rfl,
   calculate_position_size_spec.2.2.1 rmBase "RELIANCE" 100 100 .long
     (by with_unfolding_all decide),
   (calculate_position_size_spec.2.2.2.1 rmBase "RELIANCE" 100 95 .long
     (by decide) rfl (by with_unfolding_all decide)
     (by with_unfolding_all decide) (by with_unfolding_all decide)
     (by with_unfolding_all decide)
     (by with_unfolding_all decide)).1 (by with_unfolding_all decide)⟩

/-- `calculate_position_size` returns either the refusal value 0 or at
least 1 (the source floors the sized quantity at 1). -/
theorem calculate_position_size_zero_or_pos (rm : RiskManager)
    (symbol : String) (e st : ℚ) (sd : Side) :
    calculate_position_size rm symbol e st sd = 0
    ∨ 1 ≤ calculate_position_size rm symbol e st sd := by
  have hclamp : ∀ q : ℤ, 1 ≤ sizeClamp rm e q := by
    intro q
    unfold sizeClamp
    split
    · exact le_max_right _ 1
    · exact le_max_right _ 1
  unfold calculate_position_size
  split
  · exact Or.inl rfl
  · split
    · exact Or.inl rfl
    · split
      · exact Or.inl rfl
      · split
        · exact Or.inl rfl
        · split
          · split
            · exact Or.inl rfl
            · exact Or.inr (hclamp _)
          · exact Or.inr (hclamp _)

/-- The portfolio debit made by a successful `open_position`. -/
theorem open_position_pv (rm : RiskManager) (symbol : String) (sd : Side)
    (q : ℤ) (e : ℚ) (st : Option ℚ) (hq : 0 < q)
    (hslp : (closeExisting rm symbol).stop_loss_percent ≠ 0) :
    (open_position rm symbol sd q e st).2.portfolio_value =
      (closeExisting rm symbol).portfolio_value - q * e := by
  unfold open_position
  rw [if_neg (not_le.mpr hq), if_neg hslp]

/-- C1 counterexample state: the fresh manager already tracking a long
position on symbol A (10 units opened at 50). -/
def rmWithPos : RiskManager :=
  { rmBase with
    positions := [("A", ⟨"A", .long, 10, 50, 50, some 45, some 55⟩)] }

/-- C1 (counterexample): in live mode, when the entry signal is for a
symbol that already has an open position, `open_position` succeeds (it
closes the old position first) and the rollback after order failure does
remove the symbol, but `portfolio_value` ends at 100500, not its
pre-open value 100000: closing the pre-existing position credited its
margin back, so the rollback does not restore the pre-open portfolio
value exactly. -/
theorem entry_rollback_not_exact :
    calculate_position_size rmWithPos "A" 100 95 .long = 400
    ∧ (open_position rmWithPos "A" .long 400 100 (some 95)).1 = true
    ∧ (execute_entry_signal .live rmWithPos "A" .long 100 95 1
        false).2.portfolio_value = 100500
    ∧ rmWithPos.portfolio_value = 100000
    ∧ (execute_entry_signal .live rmWithPos "A" .long 100 95 1
        false).2.portfolio_value ≠ rmWithPos.portfolio_value := by
  have hq400 : calculate_position_size rmWithPos "A" 100 95 .long = 400 := by
    with_unfolding_all decide
  have hslpW : rmWithPos.stop_loss_percent ≠ 0 := by
    with_unfolding_all decide
  have hgetA : dictGet rmWithPos.positions "A" =
      some ⟨"A", .long, 10, 50, 50, some 45, some 55⟩ := rfl
  have hcontainsA : dictContains rmWithPos.positions "A" = true := rfl
  have hCEpv : (closeExisting rmWithPos "A").portfolio_value = 100500 := by
    unfold closeExisting
    rw [if_pos hcontainsA, close_position_some rmWithPos "A" none _ hgetA,
      closePnl_eq]
    show (100000 : ℚ) + (((10 : ℤ) : ℚ) * 50) + (50 - 50) * ((10 : ℤ) : ℚ) =
      100500
    norm_num
  have hslpCE : (closeExisting rmWithPos "A").stop_loss_percent ≠ 0 := by
    rw [(closeExisting_fields rmWithPos "A").2.2.1]
    exact hslpW
  have hOpv : (open_position rmWithPos "A" .long 400 100
      (some 95)).2.portfolio_value = 60500 := by
    rw [open_position_pv rmWithPos "A" .long 400 100 (some 95)
      (by decide) hslpCE, hCEpv]
    norm_num
  have hinto := open_position_into rmWithPos "A" .long 400 100 (some 95)
    (by decide) hslpW
  have hexec : execute_entry_signal .live rmWithPos "A" .long 100 95 1
      false = (false, (close_position (open_position rmWithPos "A" .long
        400 100 (some 95)).2 "A" none).2) := by
    unfold execute_entry_signal
    rw [hq400]
    rw [if_neg (by decide : ¬(400 : ℤ) = 0)]
    show entryAfterSizing .live rmWithPos "A" .long 100 95 400 false = _
    unfold entryAfterSizing
    rw [hinto.1]
    rfl
  have hpvF : (execute_entry_signal .live rmWithPos "A" .long 100 95 1
      false).2.portfolio_value = 100500 := by
    rw [hexec]
    rw [close_position_some _ "A" none _ hinto.2.1, closePnl_eq]
    show (open_position rmWithPos "A" .long 400 100
        (some 95)).2.portfolio_value + (((400 : ℤ) : ℚ) * 100) +
      (100 - 100) * ((400 : ℤ) : ℚ) = 100500
    rw [hOpv]
    norm_num
  refine ⟨hq400, hinto.1, hpvF, rfl, ?_⟩
  rw [hpvF]
  with_unfolding_all decide

/-- C1 (amended): in live trading mode, when no position for the symbol
is open beforehand and `_execute_entry_signal` opens a position in the
RiskManager but `_place_order` fails after all retries, the position is
rolled back: the call returns `False`, the position set is restored
exactly, and `portfolio_value` equals its pre-open value exactly (the
debit of `quantity * entry` is re-credited symmetrically).  When a
position for the symbol already existed, its forced close changes
`portfolio_value`, so exact restoration holds only for the fresh-symbol
case. -/
theorem entry_rollback_fresh_exact (rm : RiskManager) (symbol : String)
    (sd : Side) (price stop : ℚ) (tq : ℤ)
    (hfresh : dictGet rm.positions symbol = none)
    (hslp : rm.stop_loss_percent ≠ 0)
    (hq : calculate_position_size rm symbol price stop sd ≠ 0) :
    (execute_entry_signal .live rm symbol sd price stop tq false).1 = false
    ∧ (execute_entry_signal .live rm symbol sd price stop tq
        false).2.positions = rm.positions
    ∧ dictGet (execute_entry_signal .live rm symbol sd price stop tq
        false).2.positions symbol = none
    ∧ (execute_entry_signal .live rm symbol sd price stop tq
        false).2.portfolio_value = rm.portfolio_value := by
  have hq1 : 1 ≤ calculate_position_size rm symbol price stop sd :=
    (calculate_position_size_zero_or_pos rm symbol price stop sd).resolve_left hq
  have hqpos : 0 < calculate_position_size rm symbol price stop sd :=
    lt_of_lt_of_le Int.zero_lt_one hq1
  have hexec : execute_entry_signal .live rm symbol sd price stop tq false =
      (false, (close_position
        (open_position rm symbol sd
          (calculate_position_size rm symbol price stop sd) price
          (some stop)).2 symbol none).2) := by
    unfold execute_entry_signal
    rw [if_neg hq]
    show entryAfterSizing .live rm symbol sd price stop
      (calculate_position_size rm symbol price stop sd) false = _
    unfold entryAfterSizing
    rw [open_position_fresh rm symbol sd _ price (some stop) hfresh hqpos
      hslp]
    rfl
  rw [hexec, open_position_fresh rm symbol sd _ price (some stop) hfresh
    hqpos hslp]
  rw [close_position_some _ symbol none
    (openedPosition rm.stop_loss_percent rm.target_profit_percent symbol sd
      (calculate_position_size rm symbol price stop sd) price (some stop))
    (dictGet_append_singleton _ hfresh)]
  refine ⟨rfl, ?_, ?_, ?_⟩
  · exact dictErase_append_singleton _ hfresh
  · show dictGet (dictErase _ symbol) symbol = none
    exact dictGet_dictErase_self _ _
  · show rm.portfolio_value -
      (calculate_position_size rm symbol price stop sd) * price +
      ((calculate_position_size rm symbol price stop sd) *
        (Option.getD none (openedPosition rm.stop_loss_percent
          rm.target_profit_percent symbol sd
          (calculate_position_size rm symbol price stop sd) price
          (some stop)).current_price)) +
      closePnl _ _ = rm.portfolio_value
    rw [closePnl_eq]
    rcases sd with _ | _ <;> simp [openedPosition]

/-- Witness for `entry_rollback_fresh_exact`: a failed live entry on the
fresh manager leaves it untouched. -/
theorem entry_rollback_fresh_exact_witness :
    (execute_entry_signal .live rmBase "TCS" .long 100 95 1 false).1 = false
    ∧ (execute_entry_signal .live rmBase "TCS" .long 100 95 1
        false).2.positions = rmBase.positions
    ∧ dictGet (execute_entry_signal .live rmBase "TCS" .long 100 95 1
        false).2.positions "TCS" = none
    ∧ (execute_entry_signal .live rmBase "TCS" .long 100 95 1
        false).2.portfolio_value = rmBase.portfolio_value :=
  entry_rollback_fresh_exact rmBase "TCS" .long 100 95 1 rfl
    (by with_unfolding_all decide) (by with_unfolding_all decide)

/-! ### Historical-data merge (`historical_data.py`) -/

/-- One OHLCV candle row.  `ts` is the timestamp in minutes (naive local
time, counted from the midnight preceding the series); `opn` is the
`open` column (a Lean keyword). -/
structure Candle where
  ts : ℕ
  opn : ℚ
  high : ℚ
  low : ℚ
  close : ℚ
  volume : ℚ
deriving DecidableEq, Repr

/-- The last row of the list carrying timestamp `t` — the row that
pandas `drop_duplicates(subset=['timestamp'], keep='last')` retains. -/
def lookupLast (l : List Candle) (t : ℕ) : Option Candle :=
  match l with
  | [] => none
  | a :: l => (lookupLast l t).or (if a.ts = t then some a else none)

/-- `drop_duplicates(subset=['timestamp'], keep='last')`: a row is kept
iff no later row has the same timestamp. -/
def dedupKeepLast : List Candle → List Candle
  | [] => []
  | r :: rs =>
    if rs.any (fun s => s.ts == r.ts) then dedupKeepLast rs
    else r :: dedupKeepLast rs

/-- Timestamp order used by `sort_values('timestamp')`. -/
def tsLE (a b : Candle) : Prop := a.ts ≤ b.ts

/-- Strict timestamp order. -/
def tsLT (a b : Candle) : Prop := a.ts < b.ts

instance : DecidableRel tsLE := fun a b => Nat.decLe a.ts b.ts

instance : IsTotal Candle tsLE := ⟨fun a b => Nat.le_total a.ts b.ts⟩

instance : IsTrans Candle tsLE := ⟨fun _ _ _ => Nat.le_trans⟩

instance : IsAntisymm Candle tsLT :=
  ⟨fun _ _ h1 h2 => absurd h2 (Nat.lt_asymm h1)⟩

/-- `HistoricalDataManager._merge_and_deduplicate`: concatenate, drop
duplicate timestamps keeping the last occurrence, sort ascending by
timestamp (the sort key is unique after deduplication, so any
comparison sort yields this list). -/
def merge_and_deduplicate (existing_df new_df : List Candle) :
    List Candle :=
  List.insertionSort tsLE (dedupKeepLast (existing_df ++ new_df))

theorem lookupLast_cons (a : Candle) (l : List Candle) (t : ℕ) :
    lookupLast (a :: l) t =
      (lookupLast l t).or (if a.ts = t then some a else none) := rfl

theorem lookupLast_append (l₁ l₂ : List Candle) (t : ℕ) :
    lookupLast (l₁ ++ l₂) t = (lookupLast l₂ t).or (lookupLast l₁ t) := by
  induction l₁ with
  | nil =>
    show lookupLast l₂ t = (lookupLast l₂ t).or none
    rw [Option.or_none]
  | cons a l₁ ih =>
    rw [List.cons_append, lookupLast_cons, lookupLast_cons, ih,
      Option.or_assoc]

theorem lookupLast_eq_none_iff (l : List Candle) (t : ℕ) :
    lookupLast l t = none ↔ ∀ r ∈ l, r.ts ≠ t := by
  induction l with
  | nil => simp [lookupLast]
  | cons a l ih =>
    rw [lookupLast_cons]
    rcases hl : lookupLast l t with _ | r
    · rw [Option.none_or]
      constructor
      · intro h r hr hrt
        rcases List.mem_cons.mp hr with rfl | hr'
        · rw [if_pos hrt] at h
          exact Option.noConfusion h
        · exact ih.mp hl r hr' hrt
      · intro h
        rw [if_neg (h a (List.mem_cons_self a l))]
    · rw [Option.or_some]
      constructor
      · intro h
        exact Option.noConfusion h
      · intro h
        have h2 := ih.mpr (fun s hs => h s (List.mem_cons_of_mem a hs))
        rw [h2] at hl
        exact Option.noConfusion hl

theorem lookupLast_mem : ∀ {l : List Candle} {t : ℕ} {r : Candle},
    lookupLast l t = some r → r ∈ l ∧ r.ts = t := by
  intro l
  induction l with
  | nil => intro t r h; exact Option.noConfusion h
  | cons a l ih =>
    intro t r h
    rw [lookupLast_cons] at h
    rcases hl : lookupLast l t with _ | r'
    · rw [hl, Option.none_or] at h
      by_cases hat : a.ts = t
      · rw [if_pos hat] at h
        injection h with h'
        subst h'
        exact ⟨List.mem_cons_self a l, hat⟩
      · rw [if_neg hat] at h
        exact Option.noConfusion h
    · rw [hl, Option.or_some] at h
      injection h with h'
      subst h'
      rcases ih hl with ⟨h1, h2⟩
      exact ⟨List.mem_cons_of_mem a h1, h2⟩

theorem dedupKeepLast_subset : ∀ {l : List Candle},
    dedupKeepLast l ⊆ l := by
  intro l
  induction l with
  | nil => exact fun _ h => h
  | cons a l ih =>
    show dedupKeepLast (a :: l) ⊆ a :: l
    unfold dedupKeepLast
    split
    · exact fun x hx => List.mem_cons_of_mem a (ih hx)
    · intro x hx
      rcases List.mem_cons.mp hx with rfl | hx'
      · exact List.mem_cons_self x l
      · exact List.mem_cons_of_mem a (ih hx')

theorem dedupKeepLast_pairwise : ∀ (l : List Candle),
    (dedupKeepLast l).Pairwise (fun a b => a.ts ≠ b.ts) := by
  intro l
  induction l with
  | nil => exact List.Pairwise.nil
  | cons a l ih =>
    unfold dedupKeepLast
    split
    · exact ih
    · next hany =>
      refine List.pairwise_cons.mpr ⟨?_, ih⟩
      intro b hb
      have hbl := dedupKeepLast_subset hb
      simp only [Bool.not_eq_true, List.any_eq_false] at hany
      intro hts
      exact absurd (hany b hbl) (by simp [hts])

theorem mem_dedupKeepLast : ∀ {l : List Candle} {r : Candle},
    r ∈ dedupKeepLast l ↔ lookupLast l r.ts = some r := by
  intro l
  induction l with
  | nil =>
    intro r
    simp [dedupKeepLast, lookupLast]
  | cons a l ih =>
    intro r
    rw [lookupLast_cons]
    unfold dedupKeepLast
    split
    · next hany =>
      rcases hl : lookupLast l r.ts with _ | r'
      · rw [Option.none_or]
        have hnone := (lookupLast_eq_none_iff l r.ts).mp hl
        constructor
        · intro h
          have := ih.mp h
          rw [hl] at this
          exact Option.noConfusion this
        · intro h
          by_cases hat : a.ts = r.ts
          · rcases List.any_eq_true.mp hany with ⟨s, hs, hsts⟩
            have hs' : s.ts = a.ts := by simpa using hsts
            exact absurd (hs'.trans hat) (hnone s hs)
          · rw [if_neg hat] at h
            exact Option.noConfusion h
      · rw [Option.or_some]
        exact ih.trans (by rw [hl])
    · next hany =>
      simp only [Bool.not_eq_true, List.any_eq_false] at hany
      rcases hl : lookupLast l r.ts with _ | r'
      · rw [Option.none_or]
        constructor
        · intro h
          rcases List.mem_cons.mp h with rfl | h'
          · rw [if_pos rfl]
          · have := ih.mp h'
            rw [hl] at this
            exact Option.noConfusion this
        · intro h
          by_cases hat : a.ts = r.ts
          · rw [if_pos hat] at h
            injection h with h'
            exact h' ▸ List.mem_cons_self a _
          · rw [if_neg hat] at h
            exact Option.noConfusion h
      · rw [Option.or_some]
        constructor
        · intro h
          rcases List.mem_cons.mp h with rfl | h'
          · rcases lookupLast_mem hl with ⟨hmem, hts⟩
            exact absurd (hany r' hmem) (by simp [hts])
          · have := ih.mp h'
            rw [hl] at this
            exact this
        · intro h
          injection h with h'
          subst h'
          exact List.mem_cons_of_mem a (ih.mpr hl)

theorem lookupLast_of_pairwise : ∀ {l : List Candle},
    l.Pairwise (fun a b => a.ts ≠ b.ts) → ∀ {t : ℕ} {r : Candle},
    r ∈ l → r.ts = t → lookupLast l t = some r := by
  intro l
  induction l with
  | nil => intro _ t r h; cases h
  | cons a l ih =>
    intro hp t r hmem hts
    rcases List.pairwise_cons.mp hp with ⟨ha, ht⟩
    rw [lookupLast_cons]
    rcases List.mem_cons.mp hmem with rfl | h'
    · have hnone : lookupLast l t = none :=
        (lookupLast_eq_none_iff l t).mpr
          (fun s hs => by rw [← hts]; exact (ha s hs).symm)
      rw [hnone, Option.none_or, if_pos hts]
    · rw [ih ht h' hts, Option.or_some]

theorem dedupKeepLast_nodup (l : List Candle) :
    (dedupKeepLast l).Nodup := by
  refine (dedupKeepLast_pairwise l).imp ?_
  intro a b h hab
  exact h (by rw [hab])

theorem sorted_lt_of_le_of_ne {l : List Candle} (h1 : l.Pairwise tsLE)
    (h2 : l.Pairwise (fun a b => a.ts ≠ b.ts)) : l.Pairwise tsLT := by
  induction l with
  | nil => exact List.Pairwise.nil
  | cons a l ih =>
    rcases List.pairwise_cons.mp h1 with ⟨ha1, ht1⟩
    rcases List.pairwise_cons.mp h2 with ⟨ha2, ht2⟩
    exact List.pairwise_cons.mpr
      ⟨fun b hb => lt_of_le_of_ne (ha1 b hb) (ha2 b hb), ih ht1 ht2⟩

/-- The deduplicated concatenation has pairwise-distinct timestamps even
after sorting. -/
theorem merge_pairwise_ne (A B : List Candle) :
    (merge_and_deduplicate A B).Pairwise (fun a b => a.ts ≠ b.ts) :=
  ((List.perm_insertionSort tsLE (dedupKeepLast (A ++ B))).pairwise_iff
    (fun h => h.symm)).mpr (dedupKeepLast_pairwise (A ++ B))

/-- Membership in the merge result is exactly "this row is the last
occurrence of its timestamp in `existing ++ new`". -/
theorem mem_merge_iff (A B : List Candle) (r : Candle) :
    r ∈ merge_and_deduplicate A B ↔ lookupLast (A ++ B) r.ts = some r :=
  ((List.perm_insertionSort tsLE (dedupKeepLast (A ++ B))).mem_iff).trans
    mem_dedupKeepLast

theorem merge_nodup (A B : List Candle) :
    (merge_and_deduplicate A B).Nodup := by
  refine (merge_pairwise_ne A B).imp ?_
  intro a b h hab
  exact h (by rw [hab])

theorem merge_sorted_lt (A B : List Candle) :
    (merge_and_deduplicate A B).Pairwise tsLT :=
  sorted_lt_of_le_of_ne
    (List.sorted_insertionSort tsLE (dedupKeepLast (A ++ B)))
    (merge_pairwise_ne A B)

theorem lookupLast_merge (A B : List Candle) (t : ℕ) (r : Candle) :
    lookupLast (merge_and_deduplicate A B ++ B) t = some r ↔
    lookupLast (A ++ B) t = some r := by
  rw [lookupLast_append, lookupLast_append]
  rcases hb : lookupLast B t with _ | b
  · rw [Option.none_or, Option.none_or]
    constructor
    · intro h
      rcases lookupLast_mem h with ⟨hmem, hts⟩
      have h2 := (mem_merge_iff A B r).mp hmem
      rw [lookupLast_append, hts, hb, Option.none_or] at h2
      exact h2
    · intro h
      rcases lookupLast_mem h with ⟨hmem, hts⟩
      refine lookupLast_of_pairwise (merge_pairwise_ne A B) ?_ hts
      refine (mem_merge_iff A B r).mpr ?_
      rw [lookupLast_append, hts, hb, Option.none_or]
      exact h
  · rw [Option.or_some, Option.or_some]

/-- C2: `_merge_and_deduplicate` is idempotent in its second argument —
merging the merge result with the same new data again returns the same
series — and its result is sorted ascending by timestamp, has no duplicate
timestamps, and on a duplicate timestamp keeps exactly the newest
(last-occurring, pandas `keep='last'`) row of `existing ++ new`. -/
theorem merge_and_deduplicate_spec :
    (∀ A B : List Candle,
      merge_and_deduplicate (merge_and_deduplicate A B) B
        = merge_and_deduplicate A B) ∧
    (∀ A B : List Candle, (merge_and_deduplicate A B).Sorted tsLE) ∧
    (∀ A B : List Candle,
      ((merge_and_deduplicate A B).map Candle.ts).Nodup) ∧
    (∀ (A B : List Candle) (r : Candle),
      r ∈ merge_and_deduplicate A B ↔ lookupLast (A ++ B) r.ts = some r) := by
  refine ⟨?_, ?_, ?_, ?_⟩
  · intro A B
    have hmem : ∀ r, r ∈ merge_and_deduplicate (merge_and_deduplicate A B) B
        ↔ r ∈ merge_and_deduplicate A B := by
      intro r
      rw [mem_merge_iff, mem_merge_iff]
      exact lookupLast_merge A B r.ts r
    have hperm : (merge_and_deduplicate (merge_and_deduplicate A B) B).Perm
        (merge_and_deduplicate A B) :=
      (List.perm_ext_iff_of_nodup
        (merge_nodup (merge_and_deduplicate A B) B) (merge_nodup A B)).mpr hmem
    exact List.eq_of_perm_of_sorted hperm
      (merge_sorted_lt (merge_and_deduplicate A B) B) (merge_sorted_lt A B)
  · intro A B
    exact List.sorted_insertionSort tsLE (dedupKeepLast (A ++ B))
  · intro A B
    exact List.pairwise_map.mpr (merge_pairwise_ne A B)
  · intro A B r
    exact mem_merge_iff A B r

/- `DataProcessor.filter_market_hours`: keep only rows whose time of day is
at or before MARKET_CLOSE = "15:30" (minute 930 of the day); timestamps are
minutes since the epoch midnight. -/

def filter_market_hours (df : List Candle) : List Candle :=
  df.filter (fun c => c.ts % 1440 ≤ 930)

/- `df.resample(target_interval, label='left')` with pandas defaults
`closed='left'`, `origin='start_day'`: bins start at midnight of the first
row's day and are `size` minutes wide; each row is labeled by its bin's
left edge.  Aggregation: open = first, high = max, low = min, close = last,
volume = sum; `dropna()` removes the empty bins. -/

def minTs : List Candle → ℕ
  | [] => 0
  | [c] => c.ts
  | c :: r :: rest => min c.ts (minTs (r :: rest))

def maxTs : List Candle → ℕ
  | [] => 0
  | [c] => c.ts
  | c :: r :: rest => max c.ts (maxTs (r :: rest))

def day0 (f : List Candle) : ℕ := minTs f / 1440 * 1440

def bucketAgg (label : ℕ) : List Candle → Option Candle
  | [] => none
  | c :: rest => some
      { ts := label
        opn := c.opn
        high := rest.foldl (fun a b => max a b.high) c.high
        low := rest.foldl (fun a b => min a b.low) c.low
        close := (rest.getLastD c).close
        volume := rest.foldl (fun a b => a + b.volume) c.volume }

def nBuckets (f : List Candle) (size : ℕ) : ℕ :=
  (maxTs f - day0 f) / size + 1

def resampleBuckets (f : List Candle) (size : ℕ) : List Candle :=
  (List.range (nBuckets f size)).filterMap (fun k =>
    bucketAgg (day0 f + k * size)
      (f.filter (fun c => (c.ts - day0 f) / size = k)))

def resample_data (df : List Candle) (size : ℕ) : List Candle :=
  if (filter_market_hours df).length = 0 then []
  else resampleBuckets (filter_market_hours df) size

theorem bucketAgg_ts {label : ℕ} {g : List Candle} {c : Candle}
    (h : bucketAgg label g = some c) : c.ts = label := by
  cases g with
  | nil => exact Option.noConfusion h
  | cons a rest =>
    unfold bucketAgg at h
    injection h with h'
    rw [← h']

/-- Bins start at midnight (`origin='start_day'`), so with an hourly
interval the candle at 09:15 (minute 555) lands in the 09:00–10:00 bin and
is labeled 09:00 (minute 540) — NOT 09:15: the label is not 09:15 plus a
multiple of the bucket size. -/
theorem resample_hourly_label_is_0900 :
    resample_data [⟨555, 100, 100, 100, 100, 1⟩] 60
      = [⟨540, 100, 100, 100, 100, 1⟩] ∧
    ∀ m : ℕ, 540 ≠ 555 + m * 60 := by
  constructor
  · set_option maxRecDepth 2000 in with_unfolding_all decide
  · intro m
    omega

theorem dvd_day0 (f : List Candle) : (1440 : ℕ) ∣ day0 f :=
  ⟨minTs f / 1440, by unfold day0; rw [Nat.mul_comm]⟩

/-- C4: pandas `resample(..., label='left')` defaults to
`origin='start_day'`, so bins are anchored at midnight of the first row's
day, not at market open: every bucket-start timestamp produced by
resample_data is a multiple of the bucket size counted from midnight
(for every size dividing the 1440-minute day, each output timestamp
satisfies ts % size = 0).  In particular the hourly bucket containing the
09:15 candle is labeled 09:00, not 09:15. -/
theorem resample_ts_midnight_aligned (df : List Candle) (size : ℕ)
    (hdvd : size ∣ 1440) (c : Candle) (hc : c ∈ resample_data df size) :
    c.ts % size = 0 := by
  unfold resample_data at hc
  split at hc
  · cases hc
  · unfold resampleBuckets at hc
    rcases List.mem_filterMap.mp hc with ⟨k, _, hk⟩
    rw [bucketAgg_ts hk]
    have hsd : size ∣ day0 (filter_market_hours df) :=
      hdvd.trans (dvd_day0 (filter_market_hours df))
    rcases hsd with ⟨m, hm⟩
    rw [hm, Nat.add_mul_mod_self_right, Nat.mul_mod_right]

set_option maxRecDepth 2000 in
theorem resample_ts_midnight_aligned_witness :
    (60 : ℕ) ∣ 1440 ∧
    (⟨540, 100, 100, 100, 100, 1⟩ : Candle) ∈
      resample_data [⟨555, 100, 100, 100, 100, 1⟩] 60 ∧
    (⟨540, 100, 100, 100, 100, 1⟩ : Candle).ts % 60 = 0 :=
  ⟨by decide, by with_unfolding_all decide,
    resample_ts_midnight_aligned [⟨555, 100, 100, 100, 100, 1⟩] 60
      (by decide) ⟨540, 100, 100, 100, 100, 1⟩
      (by with_unfolding_all decide)⟩

/-- C9: resample_data aggregates each bucket as open = first, high = max,
low = min, close = last, volume = sum: the 1-minute series at
09:15–09:19 (minutes 555–559) with closes 100, 101, 99, 102, 98 and
volume 10 each resamples at 5 minutes to the single bucket timestamped
09:15 with open = 100, high = 102, low = 98, close = 98, volume = 50. -/
theorem resample_five_minute_agg :
    resample_data
      [⟨555, 100, 100, 100, 100, 10⟩, ⟨556, 101, 101, 101, 101, 10⟩,
       ⟨557, 99, 99, 99, 99, 10⟩, ⟨558, 102, 102, 102, 102, 10⟩,
       ⟨559, 98, 98, 98, 98, 10⟩] 5
      = [⟨555, 100, 102, 98, 98, 50⟩] := by
  set_option maxRecDepth 2000 in with_unfolding_all decide

/- `SwingLevelsDetector.get_buy_level` (src/strategy_deploy_1.py).  A df is
its close column, a `List ℚ`; a level dict `{"date": .., "high": ..}` is a
pair `(date, high)` with the positional index as date. -/

def swingCandidates (diff c : ℚ) : ℕ → List ℚ → List (ℕ × ℚ)
  | _, [] => []
  | _, [_] => []
  | _, [_, _] => []
  | n, l :: m :: r :: rest =>
      (if r < m ∧ diff < m - r ∧ l < m ∧ diff < m - l ∧ c < m
        then [(n + 1, m)] else [])
        ++ swingCandidates diff c (n + 1) (m :: r :: rest)

def dominatedLater (a : ℕ × ℚ) (later : List (ℕ × ℚ)) : Bool :=
  later.any (fun b => decide (a.2 < b.2) && decide (a.1 < b.1))

def deleteList : List (ℕ × ℚ) → List (ℕ × ℚ)
  | [] => []
  | a :: rest =>
      (if dominatedLater a rest then [a] else []) ++ deleteList rest

def applyDeletes (l : List (ℕ × ℚ)) : List (ℕ × ℚ) :=
  (deleteList l).foldl (fun acc item => acc.erase item) l

def minHighVal : List (ℕ × ℚ) → ℚ
  | [] => 0
  | [a] => a.2
  | a :: b :: rest => min a.2 (minHighVal (b :: rest))

def minFilter (l : List (ℕ × ℚ)) : List (ℕ × ℚ) :=
  match l with
  | [] => []
  | _ :: _ => l.filter (fun p => decide (p.2 = minHighVal l))

def get_buy_level (diff : ℚ) (df : List ℚ) : List (ℕ × ℚ) :=
  match df.getLast? with
  | none => []
  | some c => minFilter (applyDeletes (swingCandidates diff c 0 df))

/-- The virgin-level loop deletes the EARLIER candidate when a LATER one
has a HIGHER high (`self.buy_level[i]["high"] < self.buy_level[j]["high"]`
with `date[i] < date[j]`): on closes 1,103,1,105,1,2 (current price 2) the
two candidates are (103 at index 1) and (105 at index 3); 103 is the
closer resistance, yet get_buy_level deletes it and returns the 105
level. -/
theorem get_buy_level_returns_farther :
    swingCandidates 0 2 0 [1, 103, 1, 105, 1, 2] = [(1, 103), (3, 105)] ∧
    (103 : ℚ) - 2 < 105 - 2 ∧
    get_buy_level 0 [1, 103, 1, 105, 1, 2] = [(3, 105)] := by
  refine ⟨?_, by norm_num, ?_⟩ <;> with_unfolding_all decide

/-- C6: the virgin-level filter discards every EARLIER candidate that is
dominated by a LATER candidate with a HIGHER high (the opposite direction
from a later-lower candidate superseding an earlier-higher one), then
keeps the minimum-high survivors.  Consequently, with two candidates the
nearest level wins only when the closer (lower) candidate is the later
one: if the candidate list is [a, b] with b.high < a.high, nothing is
deleted and the min-high filter returns exactly [b]; when instead the
closer candidate comes first it is deleted and the farther level is
returned. -/
theorem get_buy_level_two_candidates (diff : ℚ) (df : List ℚ) (c : ℚ)
    (hc : df.getLast? = some c) (a b : ℕ × ℚ)
    (hcand : swingCandidates diff c 0 df = [a, b]) (hba : b.2 < a.2) :
    get_buy_level diff df = [b] := by
  unfold get_buy_level
  rw [hc]
  show minFilter (applyDeletes (swingCandidates diff c 0 df)) = [b]
  rw [hcand]
  have hd : dominatedLater a [b] = false := by
    unfold dominatedLater
    simp only [List.any_cons, List.any_nil, Bool.or_false, Bool.and_eq_false_imp]
    intro h
    exact absurd (of_decide_eq_true h) (not_lt.mpr hba.le)
  have hdel : deleteList [a, b] = [] := by
    unfold deleteList
    rw [hd]
    rfl
  have happ : applyDeletes [a, b] = [a, b] := by
    unfold applyDeletes
    rw [hdel]
    rfl
  rw [happ]
  have hmin : minHighVal [a, b] = b.2 := by
    show min a.2 (minHighVal [b]) = b.2
    show min a.2 b.2 = b.2
    exact min_eq_right hba.le
  show [a, b].filter (fun p => decide (p.2 = minHighVal [a, b])) = [b]
  rw [hmin]
  simp only [List.filter_cons, List.filter_nil, decide_eq_true_eq]
  rw [if_neg hba.ne', if_pos trivial]

theorem get_buy_level_two_candidates_witness :
    ([1, 105, 1, 103, 1, 2] : List ℚ).getLast? = some 2 ∧
    swingCandidates 0 2 0 [1, 105, 1, 103, 1, 2] = [(1, 105), (3, 103)] ∧
    ((3 : ℕ), (103 : ℚ)).2 < ((1 : ℕ), (105 : ℚ)).2 ∧
    get_buy_level 0 [1, 105, 1, 103, 1, 2] = [(3, 103)] :=
  ⟨by with_unfolding_all decide, by with_unfolding_all decide,
    by with_unfolding_all decide,
    get_buy_level_two_candidates 0 [1, 105, 1, 103, 1, 2] 2
      (by with_unfolding_all decide) (1, 105) (3, 103)
      (by with_unfolding_all decide) (by with_unfolding_all decide)⟩

end Algo
